import Mathlib

/-!
Verification development for the timepad CLI (src/timepad/__main__.py).

Python strings are embedded as `List Char`; `datetime` values as the
`DateTime` structure below; fallible operations as `Option`; the
filesystem as an association list from path to file content.  Each
definition mirrors the source function of the same (de-underscored)
name; the Python `strptime`/`strftime` calls are modelled for the two
fixed formats used by the program ("%Y-%m-%d %H-%M-%S" and
"%Y-%m-%d %H:%M:%S"), including strptime's lenient 1-or-2 digit fields
and its whitespace-run handling for the literal space, and strftime's
zero padding.  Case mapping and whitespace classes are modelled at the
ASCII level, which covers every string the program manipulates itself.
-/

namespace Timepad

/-! ## Basic character/string helpers (Python `str` operations) -/

/-- Python `\s` / `str.strip` whitespace class (ASCII part). -/
def isSpaceC (c : Char) : Bool :=
  c = ' ' || c = '\t' || c = '\n' || c = '\r' || c = '\x0b' || c = '\x0c'

/-- Python regex `\w` word character (ASCII part). -/
def isWordChar (c : Char) : Bool :=
  c.isAlpha || c.isDigit || c = '_'

/-- Python `str.lower` (ASCII case mapping). -/
def lowerL (l : List Char) : List Char := l.map Char.toLower

/-- Python `str.strip()` with no arguments. -/
def pstrip (l : List Char) : List Char :=
  ((l.dropWhile isSpaceC).reverse.dropWhile isSpaceC).reverse

/-- Python `needle in hay` substring test. -/
def hasSub (needle : List Char) : List Char → Bool
  | [] => needle.isEmpty
  | c :: rest => needle.isPrefixOf (c :: rest) || hasSub needle rest

/-- Association-list lookup (environment map, filesystem map). -/
def alookup : List (List Char × List Char) → List Char → Option (List Char)
  | [], _ => none
  | (k, v) :: rest, q => if k = q then some v else alookup rest q

/-- Python truthiness of an optional string (`None` and `""` are falsy). -/
def optTruthy : Option (List Char) → Bool
  | none => false
  | some s => !s.isEmpty

/-- Python `a or b` on optional strings: first truthy operand wins. -/
def pyOr (a b : Option (List Char)) : Option (List Char) :=
  if optTruthy a then a else b

/-! ## The datetime model -/

/-- A second-precision `datetime.datetime` value. -/
structure DateTime where
  year : Nat
  month : Nat
  day : Nat
  hour : Nat
  minute : Nat
  second : Nat
deriving DecidableEq, Repr

/-- Gregorian leap-year rule used by `datetime`. -/
def isLeap (y : Nat) : Bool :=
  (y % 4 = 0) && (!(y % 100 = 0) || y % 400 = 0)

/-- Number of days in a month, as validated by the `datetime` constructor. -/
def daysInMonth (y m : Nat) : Nat :=
  if m = 2 then (if isLeap y then 29 else 28)
  else if m = 4 || m = 6 || m = 9 || m = 11 then 30
  else 31

/-- Field validity enforced by the `datetime` constructor
(`MINYEAR = 1`, `MAXYEAR = 9999`). -/
def validDT (t : DateTime) : Bool :=
  1 ≤ t.year && t.year ≤ 9999 &&
  1 ≤ t.month && t.month ≤ 12 &&
  1 ≤ t.day && t.day ≤ daysInMonth t.year t.month &&
  t.hour ≤ 23 && t.minute ≤ 59 && t.second ≤ 59

/-- Order-preserving injective key for comparing valid datetimes
(the comparison Python's `sorted` performs on `datetime` objects). -/
def dtKey (t : DateTime) : Nat :=
  ((((t.year * 13 + t.month) * 32 + t.day) * 24 + t.hour) * 60 + t.minute) * 60 + t.second

/-- Decimal digit character for a digit value. -/
def digitChar (n : Nat) : Char :=
  if n = 0 then '0' else if n = 1 then '1' else if n = 2 then '2'
  else if n = 3 then '3' else if n = 4 then '4' else if n = 5 then '5'
  else if n = 6 then '6' else if n = 7 then '7' else if n = 8 then '8'
  else '9'

/-- Numeric value of a digit character. -/
def digitVal (c : Char) : Nat := c.toNat - 48

/-- Two-digit zero-padded field (strftime `%m`, `%d`, `%H`, `%M`, `%S`). -/
def pad2 (n : Nat) : List Char := [digitChar (n / 10), digitChar (n % 10)]

/-- Four-digit zero-padded field (strftime `%Y`). -/
def pad4 (n : Nat) : List Char :=
  [digitChar (n / 1000), digitChar (n / 100 % 10), digitChar (n / 10 % 10), digitChar (n % 10)]

/-- Model of `ts.strftime(FILENAME_DT_FORMAT)`, format "%Y-%m-%d %H-%M-%S". -/
def strftimeFilename (t : DateTime) : List Char :=
  pad4 t.year ++ '-' :: (pad2 t.month ++ '-' :: (pad2 t.day ++
    ' ' :: (pad2 t.hour ++ '-' :: (pad2 t.minute ++ '-' :: pad2 t.second))))

/-- Model of `ts.strftime(DISPLAY_DT_FORMAT)`, format "%Y-%m-%d %H:%M:%S". -/
def strftimeDisplay (t : DateTime) : List Char :=
  pad4 t.year ++ '-' :: (pad2 t.month ++ '-' :: (pad2 t.day ++
    ' ' :: (pad2 t.hour ++ ':' :: (pad2 t.minute ++ ':' :: pad2 t.second))))

/-! ## strptime for the program's two formats

CPython's `_strptime` compiles the format to a regex: `%Y` matches
exactly four digits, the other numeric fields match one or two digits
greedily, a literal space matches a run `\s+` of whitespace, and the
whole string must be consumed; the parsed fields are then validated by
the `datetime` constructor.  A parse failure raises `ValueError`,
modelled as `none`. -/

/-- Exactly four digits (strptime `%Y`). -/
def exact4 : List Char → Option (Nat × List Char)
  | c1 :: c2 :: c3 :: c4 :: rest =>
    if c1.isDigit && c2.isDigit && c3.isDigit && c4.isDigit then
      some (((digitVal c1 * 10 + digitVal c2) * 10 + digitVal c3) * 10 + digitVal c4, rest)
    else none
  | _ => none

/-- One or two digits, greedy (strptime `%m`, `%d`, `%H`, `%M`, `%S`). -/
def take2 : List Char → Option (Nat × List Char)
  | c1 :: c2 :: rest =>
    if c1.isDigit then
      if c2.isDigit then some (10 * digitVal c1 + digitVal c2, rest)
      else some (digitVal c1, c2 :: rest)
    else none
  | [c1] => if c1.isDigit then some (digitVal c1, []) else none
  | [] => none

/-- A single expected literal character. -/
def expectC (c : Char) : List Char → Option (List Char)
  | x :: rest => if x = c then some rest else none
  | [] => none

/-- A nonempty whitespace run (strptime's translation of a literal space). -/
def spaces1 : List Char → Option (List Char)
  | c :: rest => if isSpaceC c then some (rest.dropWhile isSpaceC) else none
  | [] => none

/-- Model of `datetime.strptime(s, "%Y-%m-%d %H<sep>%M<sep>%S")` where `sep` is
`'-'` for `FILENAME_DT_FORMAT` and `':'` for `DISPLAY_DT_FORMAT`. -/
def strptimePy (sep : Char) (l : List Char) : Option DateTime := do
  let (y, r1) ← exact4 l
  let r2 ← expectC '-' r1
  let (mo, r3) ← take2 r2
  let r4 ← expectC '-' r3
  let (d, r5) ← take2 r4
  let r6 ← spaces1 r5
  let (h, r7) ← take2 r6
  let r8 ← expectC sep r7
  let (mi, r9) ← take2 r8
  let r10 ← expectC sep r9
  let (s, r11) ← take2 r10
  if r11 = [] && validDT ⟨y, mo, d, h, mi, s⟩ then some ⟨y, mo, d, h, mi, s⟩ else none

/-- The `for fmt in (FILENAME_DT_FORMAT, DISPLAY_DT_FORMAT)` loop of
`parse_entry`: try the dash layout first, then the colon layout. -/
def parseTimestamp (s : List Char) : Option DateTime :=
  match strptimePy '-' s with
  | some dt => some dt
  | none => strptimePy ':' s

/-! ## The Entry codec -/

/-- An `Entry` dataclass value.  The store below works directly at the
filename level, so `path` holds the base filename and the derived
`filename` property coincides with it. -/
structure Entry where
  path : List Char
  dt : DateTime
  subject : List Char
deriving DecidableEq, Repr

/-- The `filename` property (`os.path.basename(self.path)`). -/
def Entry.filename (e : Entry) : List Char := e.path

/-- Source `parse_entry`: filename must end in ".txt" case-insensitively, be at
least `FILENAME_DT_LEN + 5 = 24` characters long, and its first 19
characters must parse as a timestamp; the subject is `name[20:-4]`. -/
def parse_entry (name : List Char) : Option Entry :=
  if !(".txt".data.isSuffixOf (lowerL name)) then none
  else if name.length < 24 then none
  else
    match parseTimestamp (name.take 19) with
    | none => none
    | some dt => some ⟨name, dt, (name.drop 20).take (name.length - 24)⟩

/-- Source `_make_filename(ts, subject)`: `"{base} {subject}.txt"` when the
subject is truthy, otherwise `"{base}.txt"`. -/
def make_filename (ts : DateTime) (subject : Option (List Char)) : List Char :=
  match subject with
  | some s => if s.isEmpty then strftimeFilename ts ++ ".txt".data
              else strftimeFilename ts ++ ' ' :: (s ++ ".txt".data)
  | none => strftimeFilename ts ++ ".txt".data

/-! ## The Entry store -/

/-- Model of the `glob.glob(os.path.join(base_dir, "*.txt"))` membership test on a
base filename: glob is case-sensitive and hides dotfiles. -/
def globTxt (name : List Char) : Bool :=
  match name with
  | [] => false
  | c :: _ => !(c = '.') && ".txt".data.isSuffixOf name

/-- Source `scan_entries`: the directory is a list of base filenames; glob picks
the `*.txt` files and decode failures are silently skipped. -/
def scan_entries (files : List (List Char)) : List Entry :=
  (files.filter globTxt).filterMap parse_entry

/-- Ascending comparison used by `sorted(entries, key=lambda e: e.dt)`. -/
def entLe (a b : Entry) : Prop := dtKey a.dt ≤ dtKey b.dt

instance : DecidableRel entLe := fun a b => Nat.decLe _ _

instance : IsTotal Entry entLe := ⟨fun a b => Nat.le_total (dtKey a.dt) (dtKey b.dt)⟩

instance : IsTrans Entry entLe := ⟨fun _ _ _ => Nat.le_trans⟩

/-- Descending comparison (`sorted(..., reverse=True)` is stable, which a
stable sort with the flipped non-strict comparison reproduces). -/
def entGe (a b : Entry) : Prop := dtKey b.dt ≤ dtKey a.dt

instance : DecidableRel entGe := fun a b => Nat.decLe _ _

/-- Source `sort_entries(entries, ascending)`. -/
def sort_entries (entries : List Entry) (ascending : Bool) : List Entry :=
  if ascending then List.insertionSort entLe entries
  else List.insertionSort entGe entries

/-! ## Query-time normalization (`_normalize_query_time_to_hyphens`)

The function applies two `re.sub` passes.  Pass (a) rewrites every
non-overlapping occurrence of
`(\b\d{4}-\d{2}-\d{2}\b)\s+(\d{2}:\d{2}(?::\d{2})?)` to the date, a
single space, and the time with its colons replaced by hyphens.  Pass
(b) rewrites a single leading occurrence of
`^\s*(\d{2}:\d{2}(?::\d{2})?)` to the time with colons replaced by
hyphens (the matched leading whitespace is consumed by the match and
therefore dropped).  Both are modelled by direct scanners: the digit
groups are fixed-width, `\s+` is maximal-munch (the following `\d` is
never whitespace), and the trailing optional `(?::\d{2})?` is at the
end of the pattern, so the regexes are backtracking-free. -/

/-- Match of pass (a)'s pattern at the head of the list; on success
returns the replacement text and the unconsumed rest. -/
def matchDT (l : List Char) : Option (List Char × List Char) :=
  match l with
  | a :: b :: c :: d :: '-' :: e :: f :: '-' :: g :: h :: rest =>
    if a.isDigit && b.isDigit && c.isDigit && d.isDigit &&
       e.isDigit && f.isDigit && g.isDigit && h.isDigit then
      match rest.takeWhile isSpaceC with
      | [] => none
      | _ :: _ =>
        match rest.dropWhile isSpaceC with
        | h1 :: h2 :: ':' :: m1 :: m2 :: rest2 =>
          if h1.isDigit && h2.isDigit && m1.isDigit && m2.isDigit then
            let dateRepl := [a, b, c, d, '-', e, f, '-', g, h, ' ']
            match rest2 with
            | ':' :: s1 :: s2 :: rest3 =>
              if s1.isDigit && s2.isDigit then
                some (dateRepl ++ [h1, h2, '-', m1, m2, '-', s1, s2], rest3)
              else some (dateRepl ++ [h1, h2, '-', m1, m2], rest2)
            | _ => some (dateRepl ++ [h1, h2, '-', m1, m2], rest2)
          else none
        | _ => none
    else none
  | _ => none

/-- Fuel-driven scanner for pass (a): at every position whose preceding
character is not a word character (`\b`), attempt `matchDT`; a
replacement's text is not rescanned, and scanning resumes after it with
a word character (a digit) as the new preceding character. -/
def passA : Nat → Bool → List Char → List Char
  | 0, _, l => l
  | _ + 1, _, [] => []
  | fuel + 1, prevW, c :: cs =>
    if prevW then c :: passA fuel (isWordChar c) cs
    else
      match matchDT (c :: cs) with
      | some (repl, rest) => repl ++ passA fuel true rest
      | none => c :: passA fuel (isWordChar c) cs

/-- Pass (b): a leading `\s*` followed by a colon-separated time. -/
def passB (l : List Char) : List Char :=
  match l.dropWhile isSpaceC with
  | h1 :: h2 :: ':' :: m1 :: m2 :: rest =>
    if h1.isDigit && h2.isDigit && m1.isDigit && m2.isDigit then
      match rest with
      | ':' :: s1 :: s2 :: rest2 =>
        if s1.isDigit && s2.isDigit then [h1, h2, '-', m1, m2, '-', s1, s2] ++ rest2
        else [h1, h2, '-', m1, m2] ++ rest
      | _ => [h1, h2, '-', m1, m2] ++ rest
    else l
  | _ => l

/-- Source `_normalize_query_time_to_hyphens(q)`. -/
def normalize_query_time (q : List Char) : List Char :=
  passB (passA q.length false q)

/-! ## Query resolution -/

/-- Observable outcome of `resolve_by_query` / `pick_from_matches`:
either a message-and-`None` result, a directly returned entry (no
prompt), or the interactive multiple-match menu over a sorted list. -/
inductive ResolveOutcome where
  | noEntries
  | noMatches
  | picked (e : Entry)
  | menu (sorted : List Entry)
deriving DecidableEq, Repr

/-- Source `pick_from_matches(matches)`: empty list reports "No matches found.";
a single match is returned without prompting; otherwise the matches are
sorted ascending and presented as a 1-based numbered menu. -/
def pick_from_matches : List Entry → ResolveOutcome
  | [] => .noMatches
  | [e] => .picked e
  | ms => .menu (sort_entries ms true)

/-- Source `resolve_by_query(base_dir, query)` over the directory's filenames. -/
def resolve_by_query (files : List (List Char)) (query : List Char) : ResolveOutcome :=
  let query_lower := pstrip (lowerL query)
  if query_lower = "first".data ∨ query_lower = "last".data then
    let entries := scan_entries files
    if entries.isEmpty then .noEntries
    else
      let sorted := sort_entries entries true
      if query_lower = "first".data then
        match sorted with
        | e :: _ => .picked e
        | [] => .noEntries
      else
        match sorted.getLast? with
        | some e => .picked e
        | none => .noEntries
  else
    let normalized := normalize_query_time query
    let ql := lowerL normalized
    pick_from_matches ((scan_entries files).filter (fun e => hasSub ql (lowerL e.filename)))

/-! ## Path normalization (`os.path` on posix)

`resolve_base_dir` returns
`os.path.abspath(os.path.expanduser(os.path.expandvars(chosen)))`.
The three `posixpath` functions are modelled below.  `expanduser`'s
`pwd`-database fallback (HOME unset, or a `~user` prefix) is modelled
as returning the path unchanged, matching its `KeyError` branch; no
claim exercises those cases. -/

/-- World state feeding the directory resolver: the process
environment, the current working directory, and whether
`CWD/.timepad` currently exists as a directory. -/
structure Env where
  environ : List (List Char × List Char)
  cwd : List Char
  dotExists : Bool

/-- Model of `os.environ.get(name)`. -/
def envGet (env : Env) (name : String) : Option (List Char) :=
  alookup env.environ name.data

/-- Model of `os.path.expandvars`: substitute `$NAME` and `${NAME}` occurrences
from the environment; unknown or malformed references are left
unchanged, and substituted values are not rescanned. -/
def expandvarsAux (environ : List (List Char × List Char)) : Nat → List Char → List Char
  | 0, l => l
  | _ + 1, [] => []
  | fuel + 1, '$' :: rest =>
    match rest with
    | '{' :: rest2 =>
      match rest2.dropWhile (fun c => !(c = '}')) with
      | '}' :: rest3 =>
        let name := rest2.takeWhile (fun c => !(c = '}'))
        match alookup environ name with
        | some v => v ++ expandvarsAux environ fuel rest3
        | none => '$' :: '{' :: (name ++ '}' :: expandvarsAux environ fuel rest3)
      | _ => '$' :: '{' :: expandvarsAux environ fuel rest2
    | _ =>
      let name := rest.takeWhile isWordChar
      if name.isEmpty then '$' :: expandvarsAux environ fuel rest
      else
        match alookup environ name with
        | some v => v ++ expandvarsAux environ fuel (rest.drop name.length)
        | none => '$' :: (name ++ expandvarsAux environ fuel (rest.drop name.length))
  | fuel + 1, c :: rest => c :: expandvarsAux environ fuel rest

/-- Model of `os.path.expandvars(path)`. -/
def expandvars (environ : List (List Char × List Char)) (path : List Char) : List Char :=
  expandvarsAux environ path.length path

/-- Strip trailing slashes (`userhome.rstrip('/')`). -/
def rstripSlash (l : List Char) : List Char :=
  (l.reverse.dropWhile (fun c => c = '/')).reverse

/-- Model of `os.path.expanduser(path)` with `HOME` taken from the environment. -/
def expanduser (env : Env) (path : List Char) : List Char :=
  match path with
  | '~' :: tail =>
    if (tail.takeWhile (fun c => !(c = '/'))).isEmpty then
      match envGet env "HOME" with
      | some h =>
        let r := rstripSlash h ++ tail
        if r.isEmpty then "/".data else r
      | none => path
    else path
  | _ => path

/-- Model of `os.path.join(a, b)` for a single relative or absolute second part. -/
def pathJoin (a b : List Char) : List Char :=
  if b.take 1 = ['/'] then b
  else if a.isEmpty || a.getLast? = some '/' then a ++ b
  else a ++ '/' :: b

/-- The component filter/fold of `posixpath.normpath`. -/
def normpathComps (initialSlashes : Nat) (comps : List (List Char)) : List (List Char) :=
  comps.foldl
    (fun acc comp =>
      if comp.isEmpty || comp = ".".data then acc
      else if !(comp = "..".data) || (initialSlashes = 0 && acc.isEmpty) ||
              acc.getLast? = some "..".data then acc ++ [comp]
      else if !acc.isEmpty then acc.dropLast
      else acc)
    []

/-- Model of `posixpath.normpath(path)`. -/
def normpath (path : List Char) : List Char :=
  if path.isEmpty then ".".data
  else
    let initialSlashes : Nat :=
      if path.take 1 = ['/'] then
        if path.take 2 = ['/', '/'] && !(path.take 3 = ['/', '/', '/']) then 2 else 1
      else 0
    let comps := path.splitOn '/'
    let res := List.replicate initialSlashes '/' ++
      List.intercalate ['/'] (normpathComps initialSlashes comps)
    if res.isEmpty then ".".data else res

/-- Model of `os.path.abspath(path)` relative to the process working directory. -/
def abspath (cwd path : List Char) : List Char :=
  if path.take 1 = ['/'] then normpath path else normpath (pathJoin cwd path)

/-- The composed normalization `abspath(expanduser(expandvars(·)))`
applied by `resolve_base_dir` to its chosen path. -/
def normalizePath (env : Env) (p : List Char) : List Char :=
  abspath env.cwd (expanduser env (expandvars env.environ p))

/-! ## Directory resolution and the CLI entry guard -/

/-- The path `os.path.join(os.getcwd(), ".timepad")`. -/
def dotDir (env : Env) : List Char := pathJoin env.cwd ".timepad".data

/-- Source `_init_timepad_dir(check_env=False)` as seen by `resolve_base_dir`:
the returned path, plus the `os.makedirs` call it performs when the
directory does not already exist (recorded as a mutation). -/
def init_timepad_dir (env : Env) : List Char × List (List Char) :=
  (dotDir env, if env.dotExists then [] else [dotDir env])

/-- Source `resolve_base_dir(dir_opt, ignore_env, create_local)`: the resolved
(normalized) directory together with the directory-creation mutations
performed during resolution. -/
def resolve_base_dir (env : Env) (dir_opt : Option (List Char))
    (ignore_env create_local : Bool) : List Char × List (List Char) :=
  if optTruthy dir_opt then (normalizePath env (dir_opt.getD []), [])
  else if ignore_env then
    if create_local then
      let (chosen, acts) := init_timepad_dir env
      (normalizePath env chosen, acts)
    else (normalizePath env env.cwd, [])
  else
    let envv := pyOr (envGet env "TIMEPAD") (envGet env "LOG_DIR")
    if optTruthy envv then (normalizePath env (envv.getD []), [])
    else if create_local then
      let (chosen, acts) := init_timepad_dir env
      (normalizePath env chosen, acts)
    else if env.dotExists then (normalizePath env (dotDir env), [])
    else (normalizePath env env.cwd, [])

/-- The precedence order claimed by the specification, written as a flat
highest-first chain of the spec's six levels (create-local appears only
inside the ignore-environment level).  This definition follows the
spec's words, for comparison against `resolve_base_dir`. -/
def specChosenDir (env : Env) (dir_opt : Option (List Char))
    (ignore_env create_local : Bool) : List Char :=
  if optTruthy dir_opt then dir_opt.getD []
  else if ignore_env then (if create_local then dotDir env else env.cwd)
  else if optTruthy (envGet env "TIMEPAD") then (envGet env "TIMEPAD").getD []
  else if optTruthy (envGet env "LOG_DIR") then (envGet env "LOG_DIR").getD []
  else if env.dotExists then dotDir env
  else env.cwd

/-- The precedence order the code actually implements, again as a flat
highest-first chain; it differs from `specChosenDir` in one extra
level: with no explicit directory, no ignore-environment flag and
neither environment variable truthy, a set create-local flag selects
(and materializes) `CWD/.timepad` before the existing-`.timepad` and
plain-CWD fallbacks. -/
def amendedChosenDir (env : Env) (dir_opt : Option (List Char))
    (ignore_env create_local : Bool) : List Char :=
  if optTruthy dir_opt then dir_opt.getD []
  else if ignore_env then (if create_local then dotDir env else env.cwd)
  else if optTruthy (envGet env "TIMEPAD") then (envGet env "TIMEPAD").getD []
  else if optTruthy (envGet env "LOG_DIR") then (envGet env "LOG_DIR").getD []
  else if create_local then dotDir env
  else if env.dotExists then dotDir env
  else env.cwd

/-- Result of the `cli` group callback's flag validation and directory
resolution: a `click.UsageError`, or a resolved base directory together
with the filesystem mutations performed while resolving. -/
inductive CliOutcome where
  | usageError (msg : List Char)
  | ok (base_dir : List Char) (mkdirs : List (List Char))
deriving DecidableEq, Repr

/-- Whether the invocation failed with a usage error. -/
def CliOutcome.isUsage : CliOutcome → Bool
  | .usageError _ => true
  | .ok _ _ => false

/-- The directory-creation mutations performed by the invocation. -/
def CliOutcome.mutations : CliOutcome → List (List Char)
  | .usageError _ => []
  | .ok _ m => m

/-- The `cli` group callback's conflict checks followed by
`resolve_base_dir`; the checks run before resolution, so a usage error
precedes any filesystem mutation. -/
def cli (env : Env) (dir_opt : Option (List Char)) (cwd create_local : Bool) : CliOutcome :=
  if create_local && optTruthy dir_opt then
    .usageError "Flag -n/--new cannot be used together with --dir.".data
  else if create_local && !cwd &&
      (optTruthy (envGet env "TIMEPAD") || optTruthy (envGet env "LOG_DIR")) then
    .usageError "Flag -n/--new cannot be used while TIMEPAD or LOG_DIR are set. Use -c to ignore env vars.".data
  else
    let r := resolve_base_dir env dir_opt cwd create_local
    .ok r.1 r.2

/-! ## Subject-only rename (`_cmd_rename`) -/

/-- Decision taken by `_cmd_rename` after the new subject is entered. -/
inductive RenameOutcome where
  | noChanges
  | renameTo (newFilename : List Char)
deriving DecidableEq, Repr

/-- The core of `_cmd_rename` on the selected entry and the prompted
replacement subject: re-encode with the original timestamp and the
stripped subject, and report "No changes." exactly when the re-encoded
filename equals the current one. -/
def cmd_rename_core (e : Entry) (input : List Char) : RenameOutcome :=
  let new_subject := pstrip input
  let base := strftimeFilename e.dt
  let new_filename :=
    if new_subject.isEmpty then base ++ ".txt".data
    else base ++ ' ' :: (new_subject ++ ".txt".data)
  if new_filename = e.filename then .noChanges else .renameTo new_filename

/-! ## Entry creation (`_create_entry`, `_cmd_new`) -/

/-- File contents by path. -/
abbrev FS := List (List Char × List Char)

/-- Timestamp selection of `_create_entry`: a truthy `--at` value is
parsed with the display format, otherwise `datetime.now()` is used. -/
def createTimestamp (now : DateTime) (whenOpt : Option (List Char)) : Option DateTime :=
  if optTruthy whenOpt then strptimePy ':' (whenOpt.getD []) else some now

/-- Subject argument passed to `_make_filename` by `_create_entry`:
`(subject or "").strip() or None`. -/
def createSubject (subject : Option (List Char)) : Option (List Char) :=
  let s := pstrip (subject.getD [])
  if s.isEmpty then none else some s

/-- The two-line header written into a freshly created entry file. -/
def headerLine (ts : DateTime) (username : List Char) : List Char :=
  '#' :: ' ' :: (strftimeDisplay ts ++ ' ' :: (username ++ "\n\n".data))

/-- Source `_create_entry`: resolve the target path; an invalid `--at` value
aborts; an existing file is left untouched (only a note is printed);
otherwise the header is written.  Returns the updated filesystem and
the `(path, ts)` result. -/
def create_entry (fs : FS) (base_dir : List Char) (now : DateTime) (username : List Char)
    (whenOpt : Option (List Char)) (subject : Option (List Char)) :
    FS × Option (List Char × DateTime) :=
  match createTimestamp now whenOpt with
  | none => (fs, none)
  | some ts =>
    let filename := make_filename ts (createSubject subject)
    let path := pathJoin base_dir filename
    if (alookup fs path).isSome then (fs, some (path, ts))
    else ((path, headerLine ts username) :: fs, some (path, ts))

/-- Whether `_cmd_new` reaches `open_in_editor` (it does iff
`_create_entry` returned a truthy path). -/
def cmd_new_opens (fs : FS) (base_dir : List Char) (now : DateTime) (username : List Char)
    (whenOpt : Option (List Char)) (subject : Option (List Char)) : Bool :=
  ((create_entry fs base_dir now username whenOpt subject).2).isSome

/-! ## Concrete sample data used by the spec's examples -/

/-- The sample timestamp `2024-01-01 10:00:00`. -/
def sampleT : DateTime := ⟨2024, 1, 1, 10, 0, 0⟩

/-- Sample filename `2024-01-01 10-00-00 Alpha.txt`. -/
def alphaName : List Char := "2024-01-01 10-00-00 Alpha.txt".data

/-- Sample filename `2024-01-02 09-00-00 Beta.txt`. -/
def betaName : List Char := "2024-01-02 09-00-00 Beta.txt".data

/-- Sample filename `2024-01-03 08-00-00 Gamma.txt`. -/
def gammaName : List Char := "2024-01-03 08-00-00 Gamma.txt".data

/-- The spec's sample directory, deliberately in scrambled scan order. -/
def sampleFiles : List (List Char) := [gammaName, alphaName, betaName]

/-- The entry encoded by `alphaName`. -/
def alphaEntry : Entry := ⟨alphaName, ⟨2024, 1, 1, 10, 0, 0⟩, "Alpha".data⟩

/-- The entry encoded by `betaName`. -/
def betaEntry : Entry := ⟨betaName, ⟨2024, 1, 2, 9, 0, 0⟩, "Beta".data⟩

/-- The entry encoded by `gammaName`. -/
def gammaEntry : Entry := ⟨gammaName, ⟨2024, 1, 3, 8, 0, 0⟩, "Gamma".data⟩

/-! ## Helper lemmas -/

@[simp]
theorem isDigit_digitChar (n : Nat) : (digitChar n).isDigit = true := by
  unfold digitChar
  repeat' split
  all_goals decide

@[simp]
theorem isSpaceC_digitChar (n : Nat) : isSpaceC (digitChar n) = false := by
  unfold digitChar
  repeat' split
  all_goals decide

theorem digitVal_digitChar (n : Nat) (h : n < 10) : digitVal (digitChar n) = n := by
  interval_cases n <;> decide

theorem take2_pad2 (n : Nat) (h : n < 100) (r : List Char) :
    take2 (pad2 n ++ r) = some (n, r) := by
  have h1 : n / 10 < 10 := by omega
  have h2 : n % 10 < 10 := by omega
  simp [pad2, take2, digitVal_digitChar _ h1, digitVal_digitChar _ h2]
  omega

theorem exact4_pad4 (n : Nat) (h : n < 10000) (r : List Char) :
    exact4 (pad4 n ++ r) = some (n, r) := by
  have h1 : n / 1000 < 10 := by omega
  have h2 : n / 100 % 10 < 10 := by omega
  have h3 : n / 10 % 10 < 10 := by omega
  have h4 : n % 10 < 10 := by omega
  simp [pad4, exact4, digitVal_digitChar _ h1, digitVal_digitChar _ h2,
    digitVal_digitChar _ h3, digitVal_digitChar _ h4]
  omega

theorem spaces1_pad2 (n : Nat) (r : List Char) :
    spaces1 (' ' :: (pad2 n ++ r)) = some (pad2 n ++ r) := by
  simp [spaces1, pad2, List.dropWhile_cons, (by decide : isSpaceC ' ' = true)]

/-- Round trip of the file-safe timestamp layout: strftime output parses
back to the same datetime. -/
theorem strptime_strftime (t : DateTime) (hv : validDT t = true) :
    strptimePy '-' (strftimeFilename t) = some t := by
  have hy : t.year < 10000 := by
    simp only [validDT, Bool.and_eq_true, decide_eq_true_eq] at hv; omega
  have hmo : t.month < 100 := by
    simp only [validDT, Bool.and_eq_true, decide_eq_true_eq] at hv; omega
  have hd : t.day < 100 := by
    have : daysInMonth t.year t.month ≤ 31 := by
      unfold daysInMonth; repeat' split
      all_goals omega
    simp only [validDT, Bool.and_eq_true, decide_eq_true_eq] at hv; omega
  have hh : t.hour < 100 := by
    simp only [validDT, Bool.and_eq_true, decide_eq_true_eq] at hv; omega
  have hmi : t.minute < 100 := by
    simp only [validDT, Bool.and_eq_true, decide_eq_true_eq] at hv; omega
  have hs : t.second < 100 := by
    simp only [validDT, Bool.and_eq_true, decide_eq_true_eq] at hv; omega
  have hs2 : take2 (pad2 t.second) = some (t.second, []) := by
    have := take2_pad2 t.second hs []
    simpa using this
  simp [strftimeFilename, strptimePy, exact4_pad4 t.year hy, expectC,
    take2_pad2 t.month hmo, take2_pad2 t.day hd, spaces1_pad2,
    take2_pad2 t.hour hh, take2_pad2 t.minute hmi, hs2, hv]

theorem strftimeFilename_length (t : DateTime) : (strftimeFilename t).length = 19 := by
  simp [strftimeFilename, pad4, pad2]

/-- Decomposition of an encoded filename with a nonempty subject. -/
theorem encoded_name_eq (t : DateTime) (s : List Char) :
    strftimeFilename t ++ ' ' :: (s ++ ".txt".data) =
      (strftimeFilename t ++ [' ']) ++ (s ++ ".txt".data) := by
  simp

/-- The subject slice `name[20:-4]` of an encoded filename recovers the
subject. -/
theorem subject_slice (t : DateTime) (s : List Char) :
    let name := strftimeFilename t ++ ' ' :: (s ++ ".txt".data)
    (name.drop 20).take (name.length - 24) = s := by
  intro name
  have h20 : (strftimeFilename t ++ [' ']).length = 20 := by
    simp [strftimeFilename_length]
  have hdrop : name.drop 20 = s ++ ".txt".data := by
    show (strftimeFilename t ++ ' ' :: (s ++ ".txt".data)).drop 20 = _
    rw [encoded_name_eq, ← h20, List.drop_left]
  have hlen : name.length - 24 = s.length := by
    show (strftimeFilename t ++ ' ' :: (s ++ ".txt".data)).length - 24 = _
    simp [strftimeFilename_length]
    omega
  rw [hdrop, hlen, List.take_left]

/-- The lowercased encoded filename ends in ".txt". -/
theorem encoded_name_suffix (t : DateTime) (s : List Char) :
    ".txt".data.isSuffixOf (lowerL (strftimeFilename t ++ ' ' :: (s ++ ".txt".data))) = true := by
  rw [encoded_name_eq]
  have : lowerL ((strftimeFilename t ++ [' ']) ++ (s ++ ".txt".data)) =
      (lowerL ((strftimeFilename t ++ [' ']) ++ s)) ++ ".txt".data := by
    simp [lowerL]
  rw [this]
  exact List.isSuffixOf_iff_suffix.mpr (List.suffix_append _ _)

/-! ## Claim theorems -/

/-- C1, counterexample: the round trip fails for the empty subject.
`_make_filename` treats `""` as falsy and emits `"<timestamp>.txt"`
(23 characters), which `parse_entry` rejects as shorter than the
24-character minimum, so `decode(encode(t, ""))` is "not an entry"
rather than `(t, "")`. -/
theorem encode_empty_subject_not_decodable :
    parse_entry (make_filename ⟨2024, 1, 1, 10, 0, 0⟩ (some [])) = none := by decide

/-- C1, amended: for every valid timestamp `t` and every NONEMPTY
subject `s` free of path separators, decoding the filename produced by
encoding `t` and `s` yields exactly `t` and `s` again. -/
theorem decode_encode_round_trip (t : DateTime) (s : List Char)
    (hv : validDT t = true) (hs : s ≠ []) (hsep : '/' ∉ s) :
    parse_entry (make_filename t (some s)) = some ⟨make_filename t (some s), t, s⟩ := by
  have hse : s.isEmpty = false := by cases s <;> simp_all
  have hname : make_filename t (some s) = strftimeFilename t ++ ' ' :: (s ++ ".txt".data) := by
    simp [make_filename, hse]
  have hsuf := encoded_name_suffix t s
  have hlen : (strftimeFilename t ++ ' ' :: (s ++ ".txt".data)).length = 24 + s.length := by
    simp [strftimeFilename_length]
    omega
  have htake : (strftimeFilename t ++ ' ' :: (s ++ ".txt".data)).take 19 = strftimeFilename t := by
    conv_lhs => rw [← strftimeFilename_length t]
    exact List.take_left _ _
  have hts : parseTimestamp ((strftimeFilename t ++ ' ' :: (s ++ ".txt".data)).take 19) =
      some t := by
    rw [htake]
    unfold parseTimestamp
    rw [strptime_strftime t hv]
  have hslice := subject_slice t s
  rw [hname]
  unfold parse_entry
  rw [hsuf, hts, hslice]
  simp [hlen]

/-- C1, witness for the amended round trip at a concrete input. -/
theorem decode_encode_round_trip_witness :
    (validDT ⟨2024, 1, 1, 10, 0, 0⟩ = true) ∧ ("Alpha".data ≠ ([] : List Char)) ∧
    ('/' ∉ "Alpha".data) ∧
    parse_entry (make_filename ⟨2024, 1, 1, 10, 0, 0⟩ (some "Alpha".data)) =
      some ⟨make_filename ⟨2024, 1, 1, 10, 0, 0⟩ (some "Alpha".data),
            ⟨2024, 1, 1, 10, 0, 0⟩, "Alpha".data⟩ :=
  ⟨by decide, by decide, by decide,
   decode_encode_round_trip ⟨2024, 1, 1, 10, 0, 0⟩ "Alpha".data (by decide) (by decide)
     (by decide)⟩

/-- C2: a filename whose first 19 characters parse under neither
accepted timestamp layout, or which is shorter than the 24-character
minimum, is "not an entry": `parse_entry` returns `none` (exceptions
from the strptime attempts are caught inside the loop; the embedding
is a total function). -/
theorem parse_entry_invalid_none (name : List Char)
    (h : (strptimePy '-' (name.take 19) = none ∧ strptimePy ':' (name.take 19) = none) ∨
         name.length < 24) :
    parse_entry name = none := by
  rcases h with ⟨h1, h2⟩ | hlen
  · have hpt : parseTimestamp (name.take 19) = none := by
      unfold parseTimestamp
      rw [h1]
      exact h2
    unfold parse_entry
    rw [hpt]
    simp
  · unfold parse_entry
    simp [hlen]

/-- C2, witness at a concrete non-entry filename. -/
theorem parse_entry_invalid_none_witness :
    ((strptimePy '-' ("notes about stuff.txt".data.take 19) = none ∧
      strptimePy ':' ("notes about stuff.txt".data.take 19) = none) ∨
     "notes about stuff.txt".data.length < 24) ∧
    parse_entry "notes about stuff.txt".data = none :=
  ⟨Or.inl ⟨by decide, by decide⟩,
   parse_entry_invalid_none "notes about stuff.txt".data (Or.inl ⟨by decide, by decide⟩)⟩

/-- C10: `parse_entry` never inspects the character at position 19: any
filename of length at least 24 that ends in ".txt" case-insensitively
and whose first 19 characters parse as a timestamp is accepted, with
the subject taken as the slice `name[20:-4]`, whatever character sits
at position 19. -/
theorem parse_entry_ignores_separator (name : List Char) (dt : DateTime)
    (hsuf : ".txt".data.isSuffixOf (lowerL name) = true)
    (hlen : 24 ≤ name.length)
    (hts : parseTimestamp (name.take 19) = some dt) :
    parse_entry name = some ⟨name, dt, (name.drop 20).take (name.length - 24)⟩ := by
  unfold parse_entry
  rw [hsuf, hts]
  simp [Nat.not_lt.mpr hlen]

/-- C10, witness: `"2024-01-01 10-00-00Xabc.txt"`, with `'X'` instead of
a space at position 19, is accepted as an entry with subject `"abc"`. -/
theorem parse_entry_ignores_separator_witness :
    (".txt".data.isSuffixOf (lowerL "2024-01-01 10-00-00Xabc.txt".data) = true) ∧
    (24 ≤ "2024-01-01 10-00-00Xabc.txt".data.length) ∧
    (parseTimestamp ("2024-01-01 10-00-00Xabc.txt".data.take 19) =
      some ⟨2024, 1, 1, 10, 0, 0⟩) ∧
    parse_entry "2024-01-01 10-00-00Xabc.txt".data =
      some ⟨"2024-01-01 10-00-00Xabc.txt".data, ⟨2024, 1, 1, 10, 0, 0⟩, "abc".data⟩ :=
  ⟨by decide, by decide, by decide, by
    have h := parse_entry_ignores_separator "2024-01-01 10-00-00Xabc.txt".data
      ⟨2024, 1, 1, 10, 0, 0⟩ (by decide) (by decide) (by decide)
    rw [h]
    decide⟩

/-- Inversion for `parse_entry`: a successful decode carries the
filename itself and the `name[20:-4]` subject slice. -/
theorem parse_entry_path_subject (name : List Char) (e : Entry)
    (h : parse_entry name = some e) :
    e.path = name ∧ e.subject = (name.drop 20).take (name.length - 24) := by
  unfold parse_entry at h
  split at h
  · exact absurd h (by simp)
  · split at h
    · exact absurd h (by simp)
    · split at h
      · exact absurd h (by simp)
      · cases h
        exact ⟨rfl, rfl⟩

/-- The function `cmd_rename_core` re-encodes with `_make_filename` applied to the
original timestamp and the stripped input subject. -/
theorem cmd_rename_core_eq (e : Entry) (input : List Char) :
    cmd_rename_core e input =
      (if make_filename e.dt (some (pstrip input)) = e.filename then RenameOutcome.noChanges
       else RenameOutcome.renameTo (make_filename e.dt (some (pstrip input)))) := by
  unfold cmd_rename_core make_filename
  by_cases h : (pstrip input).isEmpty <;> simp [h]

/-- C8: subject-only rename re-encodes the selected entry's filename
from the original, unchanged timestamp and the new stripped subject
(`_make_filename` semantics, so an empty new subject yields
`<timestamp>.txt`), and is reported as "No changes." exactly when the
re-encoded filename equals the current filename; renaming the Alpha
entry with new subject `""` produces `2024-01-01 10-00-00.txt`, and a
"No changes." report for new subject `"Alpha"` implies the entry's
subject was already exactly `"Alpha"`. -/
theorem rename_subject_only :
    (∀ (e : Entry) (input : List Char),
       cmd_rename_core e input =
         (if make_filename e.dt (some (pstrip input)) = e.filename then RenameOutcome.noChanges
          else RenameOutcome.renameTo (make_filename e.dt (some (pstrip input))))) ∧
    (∀ (name : List Char) (e : Entry), parse_entry name = some e →
       cmd_rename_core e "Alpha".data = RenameOutcome.noChanges → e.subject = "Alpha".data) ∧
    cmd_rename_core alphaEntry [] = RenameOutcome.renameTo "2024-01-01 10-00-00.txt".data := by
  refine ⟨cmd_rename_core_eq, ?_, by decide⟩
  intro name e hp hnc
  obtain ⟨hpath, hsubj⟩ := parse_entry_path_subject name e hp
  rw [cmd_rename_core_eq] at hnc
  by_cases hc : make_filename e.dt (some (pstrip "Alpha".data)) = e.filename
  · have hstrip : pstrip "Alpha".data = "Alpha".data := by decide
    rw [hstrip] at hc
    have hmk : make_filename e.dt (some "Alpha".data) =
        strftimeFilename e.dt ++ ' ' :: ("Alpha".data ++ ".txt".data) := by
      simp [make_filename]
    rw [hmk] at hc
    have hname : name = strftimeFilename e.dt ++ ' ' :: ("Alpha".data ++ ".txt".data) := by
      rw [hc]
      show name = e.filename
      rw [Entry.filename, hpath]
    rw [hsubj, hname]
    exact subject_slice e.dt "Alpha".data
  · rw [if_neg hc] at hnc
    exact absurd hnc (by simp)

/-- C8, witness: the `"Alpha"`-rename of the Alpha entry is a no-op and
the theorem recovers that its subject is exactly `"Alpha"`. -/
theorem rename_subject_only_witness :
    (parse_entry alphaName = some alphaEntry) ∧
    (cmd_rename_core alphaEntry "Alpha".data = RenameOutcome.noChanges) ∧
    alphaEntry.subject = "Alpha".data :=
  ⟨by decide, by decide, rename_subject_only.2.1 alphaName alphaEntry (by decide) (by decide)⟩

/-- C9: `_create_entry` never overwrites: when the encoded target path
already exists it leaves the filesystem (hence the file's content)
completely unchanged and still returns the path with its timestamp;
when the path does not exist it writes exactly the two-line header
(`"# <display timestamp> <username>"` plus a blank line) at that path
and touches no other file; in either case `_cmd_new` goes on to open
the editor. -/
theorem create_entry_no_overwrite
    (fs : FS) (base_dir : List Char) (now : DateTime) (username : List Char)
    (whenOpt subject : Option (List Char)) (ts : DateTime)
    (hts : createTimestamp now whenOpt = some ts) :
    ((alookup fs (pathJoin base_dir (make_filename ts (createSubject subject)))).isSome = true →
       create_entry fs base_dir now username whenOpt subject =
         (fs, some (pathJoin base_dir (make_filename ts (createSubject subject)), ts))) ∧
    ((alookup fs (pathJoin base_dir (make_filename ts (createSubject subject)))).isSome = false →
       (alookup (create_entry fs base_dir now username whenOpt subject).1
          (pathJoin base_dir (make_filename ts (createSubject subject))) =
            some (headerLine ts username) ∧
        (∀ q, q ≠ pathJoin base_dir (make_filename ts (createSubject subject)) →
           alookup (create_entry fs base_dir now username whenOpt subject).1 q = alookup fs q) ∧
        (create_entry fs base_dir now username whenOpt subject).2 =
          some (pathJoin base_dir (make_filename ts (createSubject subject)), ts))) ∧
    cmd_new_opens fs base_dir now username whenOpt subject = true := by
  unfold cmd_new_opens create_entry
  rw [hts]
  by_cases he : (alookup fs (pathJoin base_dir (make_filename ts (createSubject subject)))).isSome = true
  · refine ⟨fun _ => by simp [he], fun hf => absurd he (by simp [hf]), ?_⟩
    simp [he]
  · have he' : (alookup fs (pathJoin base_dir (make_filename ts (createSubject subject)))).isSome
        = false := by
      simpa using he
    refine ⟨fun ht => absurd ht (by simp [he']), fun _ => ?_, by simp [he']⟩
    refine ⟨?_, ?_, ?_⟩
    · simp [he', alookup]
    · intro q hq
      have hne : ¬ pathJoin base_dir (make_filename ts (createSubject subject)) = q :=
        fun hqq => hq hqq.symm

      simp [he', alookup, hne]
    · simp [he']

/-- C9, witness: creating over an existing file leaves its old content
in place, still returns the path, and still opens the editor. -/
theorem create_entry_no_overwrite_witness :
    (createTimestamp sampleT none = some sampleT) ∧
    ((alookup [(pathJoin "/d".data (make_filename sampleT (createSubject none)), "OLD".data)]
        (pathJoin "/d".data (make_filename sampleT (createSubject none)))).isSome = true →
      create_entry [(pathJoin "/d".data (make_filename sampleT (createSubject none)), "OLD".data)]
          "/d".data sampleT "user".data none none =
        ([(pathJoin "/d".data (make_filename sampleT (createSubject none)), "OLD".data)],
         some (pathJoin "/d".data (make_filename sampleT (createSubject none)), sampleT))) ∧
    cmd_new_opens [(pathJoin "/d".data (make_filename sampleT (createSubject none)), "OLD".data)]
      "/d".data sampleT "user".data none none = true :=
  ⟨by decide,
   (create_entry_no_overwrite
      [(pathJoin "/d".data (make_filename sampleT (createSubject none)), "OLD".data)]
      "/d".data sampleT "user".data none none sampleT (by decide)).1,
   (create_entry_no_overwrite
      [(pathJoin "/d".data (make_filename sampleT (createSubject none)), "OLD".data)]
      "/d".data sampleT "user".data none none sampleT (by decide)).2.2⟩

/-- C4: when the create-local flag is set together with a truthy
explicit directory (whatever the ignore-environment flag), or together
with a truthy environment variable while the ignore-environment flag is
absent, the `cli` callback fails with a usage error and performs no
filesystem mutation. -/
theorem cli_create_local_conflict (env : Env) (dir_opt : Option (List Char)) (cwd : Bool)
    (h : optTruthy dir_opt = true ∨
         (cwd = false ∧
          (optTruthy (envGet env "TIMEPAD") || optTruthy (envGet env "LOG_DIR")) = true)) :
    (cli env dir_opt cwd true).isUsage = true ∧ (cli env dir_opt cwd true).mutations = [] := by
  unfold cli
  rcases h with h | ⟨hc, he⟩
  · simp [h, CliOutcome.isUsage, CliOutcome.mutations]
  · subst hc
    by_cases hd : optTruthy dir_opt = true
    · simp [hd, CliOutcome.isUsage, CliOutcome.mutations]
    · simp [hd, he, CliOutcome.isUsage, CliOutcome.mutations]

/-- C4, witness: create-local together with an explicit directory while
the ignore-environment flag is also set is rejected with no mutation. -/
theorem cli_create_local_conflict_witness :
    (optTruthy (some "/x".data) = true ∨
     (true = false ∧
      (optTruthy (envGet ⟨[("TIMEPAD".data, "/tp".data)], "/w".data, false⟩ "TIMEPAD") ||
       optTruthy (envGet ⟨[("TIMEPAD".data, "/tp".data)], "/w".data, false⟩ "LOG_DIR")) = true)) ∧
    (cli ⟨[("TIMEPAD".data, "/tp".data)], "/w".data, false⟩ (some "/x".data) true true).isUsage
      = true ∧
    (cli ⟨[("TIMEPAD".data, "/tp".data)], "/w".data, false⟩ (some "/x".data) true true).mutations
      = [] :=
  ⟨Or.inl (by decide),
   (cli_create_local_conflict ⟨[("TIMEPAD".data, "/tp".data)], "/w".data, false⟩
      (some "/x".data) true (Or.inl (by decide))).1,
   (cli_create_local_conflict ⟨[("TIMEPAD".data, "/tp".data)], "/w".data, false⟩
      (some "/x".data) true (Or.inl (by decide))).2⟩

/-- C3, counterexample: with no explicit directory, the
ignore-environment flag absent, neither environment variable set, the
create-local flag set and no existing `CWD/.timepad`, the spec's
precedence chain ends at the current working directory, but
`resolve_base_dir` selects (and materializes) `CWD/.timepad`. -/
theorem resolve_base_dir_spec_precedence_cex :
    (resolve_base_dir ⟨[], "/w".data, false⟩ none false true).1 ≠
      normalizePath ⟨[], "/w".data, false⟩ (specChosenDir ⟨[], "/w".data, false⟩ none false true) := by
  decide

/-- C3, amended: `resolve_base_dir` follows the spec's precedence chain
with one extra level inserted between the environment variables and the
existing-`.timepad` fallback — a set create-local flag selects
`CWD/.timepad` there — and the result is always the chosen path
normalized by `abspath(expanduser(expandvars(...)))`
(`amendedChosenDir` spells out that chain). -/
theorem resolve_base_dir_amended_precedence (env : Env) (dir_opt : Option (List Char))
    (ignore_env create_local : Bool) :
    (resolve_base_dir env dir_opt ignore_env create_local).1 =
      normalizePath env (amendedChosenDir env dir_opt ignore_env create_local) := by
  unfold resolve_base_dir amendedChosenDir init_timepad_dir
  by_cases hd : optTruthy dir_opt = true
  · simp [hd]
  · simp only [Bool.not_eq_true] at hd
    by_cases hi : ignore_env = true
    · subst hi
      by_cases hc : create_local = true
      · subst hc
        simp [hd]
      · simp only [Bool.not_eq_true] at hc
        subst hc
        simp [hd]
    · simp only [Bool.not_eq_true] at hi
      subst hi
      by_cases ht : optTruthy (envGet env "TIMEPAD") = true
      · simp [hd, ht, pyOr]
      · simp only [Bool.not_eq_true] at ht
        by_cases hl : optTruthy (envGet env "LOG_DIR") = true
        · simp [hd, ht, hl, pyOr]
        · simp only [Bool.not_eq_true] at hl
          by_cases hc : create_local = true
          · subst hc
            simp [hd, ht, hl, pyOr]
          · simp only [Bool.not_eq_true] at hc
            subst hc
            by_cases hdot : env.dotExists = true
            · simp [hd, ht, hl, hdot, pyOr]
            · simp only [Bool.not_eq_true] at hdot
              simp [hd, ht, hl, hdot, pyOr]

/-- The empty query is a substring of every filename. -/
theorem hasSub_nil (h : List Char) : hasSub [] h = true := by
  induction h with
  | nil => rfl
  | cons c rest ih => simp [hasSub, ih, List.isPrefixOf]

/-- Reduction of `resolve_by_query` on the keyword `first`. -/
theorem resolve_first_reduction (files : List (List Char)) (q : List Char)
    (hq : pstrip (lowerL q) = "first".data) :
    resolve_by_query files q =
      (match List.insertionSort entLe (scan_entries files) with
       | [] => ResolveOutcome.noEntries
       | e :: _ => ResolveOutcome.picked e) := by
  simp only [resolve_by_query, hq]
  rw [if_pos (Or.inl trivial), if_pos trivial]
  cases hE : scan_entries files with
  | nil => rfl
  | cons a t =>
    rw [if_neg (by simp : ¬(a :: t).isEmpty = true)]
    have hse : sort_entries (a :: t) true = List.insertionSort entLe (a :: t) := rfl
    rw [hse]
    cases List.insertionSort entLe (a :: t) <;> rfl

/-- Reduction of `resolve_by_query` on the keyword `last`. -/
theorem resolve_last_reduction (files : List (List Char)) (q : List Char)
    (hq : pstrip (lowerL q) = "last".data) :
    resolve_by_query files q =
      (if (scan_entries files).isEmpty then ResolveOutcome.noEntries
       else match (List.insertionSort entLe (scan_entries files)).getLast? with
            | some e => ResolveOutcome.picked e
            | none => ResolveOutcome.noEntries) := by
  simp only [resolve_by_query, hq]
  rw [if_pos (Or.inr trivial),
    if_neg (show ¬("last".data = ("first".data : List Char)) by decide)]
  cases hE : scan_entries files with
  | nil => rfl
  | cons a t =>
    rw [if_neg (by simp : ¬(a :: t).isEmpty = true),
      if_neg (by simp : ¬(a :: t).isEmpty = true)]
    have hse : sort_entries (a :: t) true = List.insertionSort entLe (a :: t) := rfl
    rw [hse]

/-- In a sorted list, every element is below the last one. -/
theorem sorted_le_getLast :
    ∀ (l : List Entry), List.Sorted entLe l → ∀ e, l.getLast? = some e →
      ∀ x ∈ l, entLe x e := by
  intro l
  induction l with
  | nil => intro _ e he; simp at he
  | cons a t ih =>
    intro hs e he x hx
    rcases List.mem_cons.mp hx with rfl | hxt
    · cases t with
      | nil =>
        have : e = x := by simpa using he.symm
        subst this
        exact Nat.le_refl _
      | cons b t2 =>
        have he' : (b :: t2).getLast? = some e := by rwa [List.getLast?_cons_cons] at he
        have hmem : e ∈ b :: t2 := List.mem_of_mem_getLast? he'
        exact (List.sorted_cons.mp hs).1 e hmem
    · cases t with
      | nil => simp at hxt
      | cons b t2 =>
        have he' : (b :: t2).getLast? = some e := by rwa [List.getLast?_cons_cons] at he
        exact ih (List.sorted_cons.mp hs).2 e he' x hxt

/-- C5: the reserved keywords are matched case-insensitively against the
entire trimmed query; `first` returns an entry whose timestamp is
minimal among all scanned entries and `last` one whose timestamp is
maximal, whatever the scan order; with no entries the outcome is the
"no entries found" report (`noEntries`), returning none. -/
theorem resolve_by_query_first_last (files : List (List Char)) (q : List Char) :
    (pstrip (lowerL q) = "first".data →
       ((scan_entries files = [] → resolve_by_query files q = ResolveOutcome.noEntries) ∧
        (scan_entries files ≠ [] → ∃ e, resolve_by_query files q = ResolveOutcome.picked e ∧
           e ∈ scan_entries files ∧ ∀ x ∈ scan_entries files, entLe e x))) ∧
    (pstrip (lowerL q) = "last".data →
       ((scan_entries files = [] → resolve_by_query files q = ResolveOutcome.noEntries) ∧
        (scan_entries files ≠ [] → ∃ e, resolve_by_query files q = ResolveOutcome.picked e ∧
           e ∈ scan_entries files ∧ ∀ x ∈ scan_entries files, entLe x e))) := by
  constructor
  · intro hq
    rw [resolve_first_reduction files q hq]
    constructor
    · intro hsc
      rw [hsc]
      rfl
    · intro hsc
      have hperm := List.perm_insertionSort entLe (scan_entries files)
      have hsorted := List.sorted_insertionSort entLe (scan_entries files)
      cases hI : List.insertionSort entLe (scan_entries files) with
      | nil =>
        rw [hI] at hperm
        exact absurd (hperm.symm.eq_nil) hsc
      | cons e rest =>
        refine ⟨e, rfl, ?_, ?_⟩
        · rw [hI] at hperm
          exact hperm.mem_iff.mp (by simp)
        · intro x hx
          rw [hI] at hperm hsorted
          rcases List.mem_cons.mp (hperm.mem_iff.mpr hx) with h | h
          · subst h
            exact Nat.le_refl _
          · exact (List.sorted_cons.mp hsorted).1 x h
  · intro hq
    rw [resolve_last_reduction files q hq]
    constructor
    · intro hsc
      rw [hsc]
      rfl
    · intro hsc
      have hperm := List.perm_insertionSort entLe (scan_entries files)
      have hsorted := List.sorted_insertionSort entLe (scan_entries files)
      have hne : (scan_entries files).isEmpty = false := by
        cases h : scan_entries files with
        | nil => exact absurd h hsc
        | cons a t => rfl
      rw [if_neg (by simp [hne])]
      cases hI : (List.insertionSort entLe (scan_entries files)).getLast? with
      | none =>
        have : List.insertionSort entLe (scan_entries files) = [] := by
          cases h : List.insertionSort entLe (scan_entries files) with
          | nil => rfl
          | cons a t => rw [h] at hI; simp [List.getLast?_eq_getLast] at hI
        rw [this] at hperm
        exact absurd (hperm.symm.eq_nil) hsc
      | some e =>
        refine ⟨e, rfl, ?_, ?_⟩
        · exact hperm.mem_iff.mp (List.mem_of_mem_getLast? hI)
        · intro x hx
          exact sorted_le_getLast _ hsorted e hI x (hperm.mem_iff.mpr hx)

/-- C5, witness: in the scrambled sample directory, the query
`" FIRST "` (mixed case, untrimmed) selects the Alpha entry, the entry
with the minimal timestamp. -/
theorem resolve_by_query_first_last_witness :
    (pstrip (lowerL " FIRST ".data) = "first".data) ∧
    ((scan_entries sampleFiles = [] →
        resolve_by_query sampleFiles " FIRST ".data = ResolveOutcome.noEntries) ∧
     (scan_entries sampleFiles ≠ [] →
        ∃ e, resolve_by_query sampleFiles " FIRST ".data = ResolveOutcome.picked e ∧
          e ∈ scan_entries sampleFiles ∧ ∀ x ∈ scan_entries sampleFiles, entLe e x)) ∧
    resolve_by_query sampleFiles " FIRST ".data = ResolveOutcome.picked alphaEntry ∧
    resolve_by_query sampleFiles "last".data = ResolveOutcome.picked gammaEntry :=
  ⟨by decide,
   (resolve_by_query_first_last sampleFiles " FIRST ".data).1 (by decide),
   by decide, by decide⟩

/-- C7: the empty query matches every entry, so `resolve_by_query`
degenerates to `pick_from_matches` over all scanned entries: zero
entries report "no matches", a single entry is returned directly with
no prompt, and more than one entry reaches the disambiguation menu
holding all of them sorted ascending by timestamp (the menu's rows are
numbered from 1); the sorted menu list is a permutation of the scan
containing every entry. -/
theorem resolve_by_query_empty_query (files : List (List Char)) :
    (resolve_by_query files [] =
       (match scan_entries files with
        | [] => ResolveOutcome.noMatches
        | [e] => ResolveOutcome.picked e
        | es => ResolveOutcome.menu (sort_entries es true))) ∧
    (sort_entries (scan_entries files) true).Perm (scan_entries files) ∧
    List.Sorted entLe (sort_entries (scan_entries files) true) ∧
    (sort_entries (scan_entries files) true).length = (scan_entries files).length := by
  have hsort : sort_entries (scan_entries files) true =
      List.insertionSort entLe (scan_entries files) := rfl
  refine ⟨?_, ?_, ?_, ?_⟩
  · have hfilter : (scan_entries files).filter
        (fun e => hasSub (lowerL (normalize_query_time [])) (lowerL e.filename)) =
        scan_entries files := by
      apply List.filter_eq_self.mpr
      intro a _
      exact hasSub_nil (lowerL a.filename)
    simp only [resolve_by_query]
    rw [if_neg (show ¬(pstrip (lowerL []) = "first".data ∨ pstrip (lowerL []) = "last".data)
      by decide)]
    rw [hfilter]
    cases scan_entries files with
    | nil => rfl
    | cons a t =>
      cases t with
      | nil => rfl
      | cons b t2 => rfl
  · rw [hsort]
    exact List.perm_insertionSort entLe (scan_entries files)
  · rw [hsort]
    exact List.sorted_insertionSort entLe (scan_entries files)
  · rw [hsort]
    exact List.length_insertionSort entLe (scan_entries files)

/-- A successful date-time match contains a colon. -/
theorem matchDT_colon : ∀ (l : List Char) (res : List Char × List Char),
    matchDT l = some res → ':' ∈ l := by
  intro l res hm
  unfold matchDT at hm
  split at hm
  · rename_i a b c d e f g h rest
    split at hm
    · split at hm
      · exact absurd hm (by simp)
      · split at hm
        · rename_i h1 h2 m1 m2 rest2 hdrop
          have hcol : ':' ∈ rest.dropWhile isSpaceC := by rw [hdrop]; simp
          have hrest : ':' ∈ rest := (List.dropWhile_sublist _).subset hcol
          simp [hrest]
        · exact absurd hm (by simp)
    · exact absurd hm (by simp)
  · exact absurd hm (by simp)

/-- Pass (a) never changes a colon-free query. -/
theorem passA_no_colon : ∀ (fuel : Nat) (w : Bool) (l : List Char), ':' ∉ l →
    passA fuel w l = l := by
  intro fuel
  induction fuel with
  | zero => intro w l _; rfl
  | succ n ih =>
    intro w l h
    cases l with
    | nil => rfl
    | cons c cs =>
      have hcs : ':' ∉ cs := fun hh => h (List.mem_cons_of_mem c hh)
      cases w with
      | true => simp [passA, ih (isWordChar c) cs hcs]
      | false =>
        cases hmt : matchDT (c :: cs) with
        | some res => exact absurd (matchDT_colon (c :: cs) res hmt) h
        | none => simp [passA, hmt, ih (isWordChar c) cs hcs]

/-- Pass (b) never changes a colon-free query. -/
theorem passB_no_colon (l : List Char) (h : ':' ∉ l) : passB l = l := by
  unfold passB
  split
  · rename_i h1 h2 m1 m2 rest heq
    exfalso
    have hcol : ':' ∈ l.dropWhile isSpaceC := by rw [heq]; simp
    exact h ((List.dropWhile_sublist _).subset hcol)
  · rfl

/-- The normalization leaves colon-free queries untouched. -/
theorem normalize_query_no_colon (q : List Char) (h : ':' ∉ q) :
    normalize_query_time q = q := by
  unfold normalize_query_time
  rw [passA_no_colon q.length false q h, passB_no_colon q h]

/-- C6: query normalization rewrites colons to hyphens only inside a
time portion — colon-free queries are returned unchanged, a time
following a date pattern is rewritten, a time at the start of the query
is rewritten, and a colon elsewhere (inside a subject) stays untouched
even when a time in the same query is rewritten; consequently the
colon-form query `2024-01-02 09:00:00` resolves uniquely to the Beta
entry with no prompting. -/
theorem normalize_query_colons :
    (∀ q : List Char, ':' ∉ q → normalize_query_time q = q) ∧
    normalize_query_time "2024-01-02 09:00:00".data = "2024-01-02 09-00-00".data ∧
    normalize_query_time "09:15 meeting".data = "09-15 meeting".data ∧
    normalize_query_time "2024-01-02 09:00 re: plan".data = "2024-01-02 09-00 re: plan".data ∧
    resolve_by_query sampleFiles "2024-01-02 09:00:00".data = ResolveOutcome.picked betaEntry :=
  ⟨normalize_query_no_colon, by decide, by decide, by decide, by decide⟩

/-- C6, witness: a concrete colon-free query is left unchanged. -/
theorem normalize_query_colons_witness :
    (':' ∉ "Beta notes".data) ∧ normalize_query_time "Beta notes".data = "Beta notes".data :=
  ⟨by decide, normalize_query_colons.1 "Beta notes".data (by decide)⟩

end Timepad
